import Mathlib

/-!
Verification of the raster pattern generator and viewport compositor of
`cocoa-rs-renderer` (`src/main.rs`, `impl ImageRenderer`).

Modelling conventions, used throughout:

* The Rust pixel buffer is a `Vec<u8>` of RGBA bytes with
  `bytes_per_row = width * 4` and `len = bytes_per_row * height`.  Every
  access in the source touches a whole aligned RGBA quadruple at byte index
  `idx = y * bytes_per_row + x * 4`, i.e. pixel index `p = y * width + x`
  with `idx = 4 * p`.  We therefore model the buffer as a `List Color` of
  pixels; the Rust byte length is `4 *` the pixel length, a bounds check
  `idx + 3 < len` is `p < length`, and an unchecked `buffer[idx] = v`
  panics exactly when `p ≥ length`.
* Rust `f64` zoom/pan arithmetic is idealized as exact rational arithmetic
  (`ℚ`).  The float-to-integer cast `v as usize` rounds toward zero and
  saturates below at `0`, which for our values is `(⌊v⌋).toNat`; the cast
  `v as u8` additionally saturates above at `255`.
* A Rust panic (out-of-range index, failing string slice) is modelled by
  `Option`: `none` means the operation panics and produces no buffer.
-/

namespace CocoaRenderer
set_option maxRecDepth 100000

/-- One RGBA pixel quadruple (each component a byte value). -/
structure Color where
  r : ℕ
  g : ℕ
  b : ℕ
  a : ℕ
deriving DecidableEq, Repr, Inhabited

/-- The `enum PatternType` from the source. -/
inductive PatternType where
  | checkerboard
  | gradient
  | text
deriving DecidableEq, Repr, Inhabited

/-- The `struct SourcePattern` from the source.  `buffer` is the pixel list
(`4 *` its length is the Rust byte length). -/
structure SourcePattern where
  buffer : List Color
  width : ℕ
  height : ℕ
  bytes_per_row : ℕ
deriving DecidableEq, Repr, Inhabited

/-- The `struct ImageRenderer` from the source. -/
structure ImageRenderer where
  source_width : ℕ
  source_height : ℕ
  zoom_level : ℚ
  view_x : ℚ
  view_y : ℚ
  pattern_type : PatternType
  source_pattern : Option SourcePattern
  primary_text : Option (List Char)
  secondary_text : Option (List Char)
deriving DecidableEq, Repr, Inhabited

/-- Rust `v as usize` on an `f64`, idealized over `ℚ`: truncation toward
zero, saturating below at `0`.  For `v ≥ 0` this is `⌊v⌋`; for `v < 0` it
is `0`, which is also `(⌊v⌋).toNat`. -/
def f64toUsize (q : ℚ) : ℕ := (⌊q⌋).toNat

/-- Rust `v as u8` on a nonnegative `f64`, idealized over `ℚ`: truncation
toward zero, saturating above at `255`. -/
def f64toU8 (q : ℚ) : ℕ := min ((⌊q⌋).toNat) 255

/-- An unchecked Rust write `buffer[idx..idx+3] = color`: panics (`none`)
when the pixel index is out of range. -/
def setP (b : List Color) (i : ℕ) (c : Color) : Option (List Color) :=
  if i < b.length then some (b.set i c) else none

/-- A sequence of unchecked writes of the same color at the given pixel
indices, in order; panics as soon as one write is out of range. -/
def paintAll (b : List Color) (c : Color) (idxs : List ℕ) : Option (List Color) :=
  idxs.foldlM (fun acc i => setP acc i c) b

/-- A bounds-checked write (`if idx + 3 < buffer.len()` in `draw_text`):
out-of-range writes are skipped silently. -/
def setSkip (b : List Color) (i : ℕ) (c : Color) : List Color :=
  if i < b.length then b.set i c else b

/-! ### Pattern generators (`generate_checkerboard`, `generate_gradient`) -/

/-- Body of the `generate_checkerboard` loop at pixel `(x, y)`:
`is_white = ((x / square_size) + (y / square_size)) % 2 == 0` with
`square_size = 20`; white or black, alpha 255. -/
def checkerboardColor (x y : ℕ) : Color :=
  let square_size := 20
  let is_white := ((x / square_size) + (y / square_size)) % 2 = 0
  let c := if is_white then 255 else 0
  ⟨c, c, c, 255⟩

/-- Source `generate_checkerboard`: the double loop writes pixel `y * w + x`
exactly once for each `y < h`, `x < w`, in increasing pixel-index order,
so the resulting buffer is the list of `checkerboardColor` values. -/
def generate_checkerboard (w h : ℕ) : List Color :=
  (List.range (w * h)).map fun p => checkerboardColor (p % w) (p / w)

/-- Body of the `generate_gradient` loop at pixel `(x, y)`:
`r = ((x as f64) / (width as f64) * 255.0) as u8`,
`g = ((y as f64) / (height as f64) * 255.0) as u8`, `b = 200`, alpha 255. -/
def gradientColor (w h x y : ℕ) : Color :=
  ⟨f64toU8 ((x : ℚ) / (w : ℚ) * 255), f64toU8 ((y : ℚ) / (h : ℚ) * 255), 200, 255⟩

/-- Source `generate_gradient`, modelled like `generate_checkerboard`. -/
def generate_gradient (w h : ℕ) : List Color :=
  (List.range (w * h)).map fun p => gradientColor w h (p % w) (p / w)

/-! ### The bitmap font (`characters`, `char_map`, `draw_text`) -/

/-- The 5×5 glyph bitmaps (`characters` array in `generate_text`), in
source order: C O M I N G S P J 2 space F L E D T A R B 0 1 3 4 5 6 7 8 9
dash period. -/
def characters : List (List (List ℕ)) :=
  [ [[0,1,1,1,0],[1,0,0,0,0],[1,0,0,0,0],[1,0,0,0,0],[0,1,1,1,0]],
    [[0,1,1,1,0],[1,0,0,0,1],[1,0,0,0,1],[1,0,0,0,1],[0,1,1,1,0]],
    [[1,0,0,0,1],[1,1,0,1,1],[1,0,1,0,1],[1,0,0,0,1],[1,0,0,0,1]],
    [[0,1,1,1,0],[0,0,1,0,0],[0,0,1,0,0],[0,0,1,0,0],[0,1,1,1,0]],
    [[1,0,0,0,1],[1,1,0,0,1],[1,0,1,0,1],[1,0,0,1,1],[1,0,0,0,1]],
    [[0,1,1,1,0],[1,0,0,0,0],[1,0,1,1,0],[1,0,0,0,1],[0,1,1,1,0]],
    [[0,1,1,1,0],[1,0,0,0,0],[0,1,1,1,0],[0,0,0,0,1],[0,1,1,1,0]],
    [[1,1,1,1,0],[1,0,0,0,1],[1,1,1,1,0],[1,0,0,0,0],[1,0,0,0,0]],
    [[0,0,1,1,0],[0,0,0,1,0],[0,0,0,1,0],[1,0,0,1,0],[0,1,1,0,0]],
    [[0,1,1,1,0],[1,0,0,0,1],[0,0,1,1,0],[0,1,0,0,0],[1,1,1,1,1]],
    [[0,0,0,0,0],[0,0,0,0,0],[0,0,0,0,0],[0,0,0,0,0],[0,0,0,0,0]],
    [[1,1,1,1,1],[1,0,0,0,0],[1,1,1,1,0],[1,0,0,0,0],[1,0,0,0,0]],
    [[1,0,0,0,0],[1,0,0,0,0],[1,0,0,0,0],[1,0,0,0,0],[1,1,1,1,1]],
    [[1,1,1,1,1],[1,0,0,0,0],[1,1,1,1,0],[1,0,0,0,0],[1,1,1,1,1]],
    [[1,1,1,1,0],[1,0,0,0,1],[1,0,0,0,1],[1,0,0,0,1],[1,1,1,1,0]],
    [[1,1,1,1,1],[0,0,1,0,0],[0,0,1,0,0],[0,0,1,0,0],[0,0,1,0,0]],
    [[0,1,1,1,0],[1,0,0,0,1],[1,1,1,1,1],[1,0,0,0,1],[1,0,0,0,1]],
    [[1,1,1,1,0],[1,0,0,0,1],[1,1,1,1,0],[1,0,1,0,0],[1,0,0,1,0]],
    [[1,1,1,1,0],[1,0,0,0,1],[1,1,1,1,0],[1,0,0,0,1],[1,1,1,1,0]],
    [[0,1,1,1,0],[1,0,0,0,1],[1,0,0,0,1],[1,0,0,0,1],[0,1,1,1,0]],
    [[0,0,1,0,0],[0,1,1,0,0],[0,0,1,0,0],[0,0,1,0,0],[0,1,1,1,0]],
    [[0,1,1,1,0],[0,0,0,0,1],[0,1,1,1,0],[0,0,0,0,1],[0,1,1,1,0]],
    [[1,0,0,0,1],[1,0,0,0,1],[1,1,1,1,1],[0,0,0,0,1],[0,0,0,0,1]],
    [[1,1,1,1,1],[1,0,0,0,0],[1,1,1,1,0],[0,0,0,0,1],[1,1,1,1,0]],
    [[0,1,1,1,0],[1,0,0,0,0],[1,1,1,1,0],[1,0,0,0,1],[0,1,1,1,0]],
    [[1,1,1,1,1],[0,0,0,0,1],[0,0,0,1,0],[0,0,1,0,0],[0,1,0,0,0]],
    [[0,1,1,1,0],[1,0,0,0,1],[0,1,1,1,0],[1,0,0,0,1],[0,1,1,1,0]],
    [[0,1,1,1,0],[1,0,0,0,1],[0,1,1,1,1],[0,0,0,0,1],[0,1,1,1,0]],
    [[0,0,0,0,0],[0,0,0,0,0],[1,1,1,1,1],[0,0,0,0,0],[0,0,0,0,0]],
    [[0,0,0,0,0],[0,0,0,0,0],[0,0,0,0,0],[0,0,0,0,0],[0,0,1,0,0]] ]

/-- Source `char_map`: character → glyph index; unknown characters map to the
space glyph (index 10), as in `char_map.get(&c).copied().unwrap_or(10)`. -/
def char_map (c : Char) : ℕ :=
  match c with
  | 'C' => 0 | 'O' => 1 | 'M' => 2 | 'I' => 3 | 'N' => 4 | 'G' => 5
  | 'S' => 6 | 'P' => 7 | 'J' => 8 | '2' => 9 | ' ' => 10 | 'F' => 11
  | 'L' => 12 | 'E' => 13 | 'D' => 14 | 'T' => 15 | 'A' => 16 | 'R' => 17
  | 'B' => 18 | '0' => 19 | '1' => 20 | '3' => 21 | '4' => 22 | '5' => 23
  | '6' => 24 | '7' => 25 | '8' => 26 | '9' => 27 | '-' => 28 | '.' => 29
  | _ => 10

/-- The pixel indices painted by `draw_text`, in source iteration order:
for character index `i` (over `text.chars()`), glyph row `y_idx`, column
`x_idx` with an ink cell, and block offsets `sy < scale_y`, `sx < scale_x`;
positions with `x ≥ width || y ≥ height` are skipped (`continue`). -/
def drawTextIdxs (w h : ℕ) (text : List Char)
    (start_x start_y char_width char_height char_padding : ℕ) : List ℕ :=
  text.enum.flatMap fun ic =>
    let char_idx := char_map ic.2
    let bitmap := characters.getD char_idx []
    let char_x := start_x + ic.1 * (char_width + char_padding)
    let scale_x := char_width / 5
    let scale_y := char_height / 5
    (List.range 5).flatMap fun y_idx =>
      (List.range 5).flatMap fun x_idx =>
        if (bitmap.getD y_idx []).getD x_idx 0 = 1 then
          (List.range scale_y).flatMap fun sy =>
            (List.range scale_x).flatMap fun sx =>
              let x := char_x + x_idx * scale_x + sx
              let y := start_y + y_idx * scale_y + sy
              if x < w ∧ y < h then [y * w + x] else []
        else []

/-- Source `draw_text`: paints the ink blocks with the given color (alpha always
255); every write is double-guarded in the source (coordinate test and
`idx + 3 < buffer.len()`), so writes are skipped, never panicking. -/
def draw_text (b : List Color) (w h : ℕ) (text : List Char)
    (start_x start_y char_width char_height char_padding : ℕ)
    (color : Color) : List Color :=
  (drawTextIdxs w h text start_x start_y char_width char_height char_padding).foldl
    (fun acc i => setSkip acc i color) b

/-! ### Text pattern (`generate_text`) -/

/-- UTF-8 encoded byte length of one character (Rust `char::len_utf8`). -/
def utf8Size (c : Char) : ℕ :=
  if c.toNat < 0x80 then 1 else if c.toNat < 0x800 then 2
  else if c.toNat < 0x10000 then 3 else 4

/-- UTF-8 byte length of a string (Rust `String::len`). -/
def utf8Len (s : List Char) : ℕ := (s.map utf8Size).sum

/-- Rust byte slice `&s[0..n]` on a valid UTF-8 string: the characters
occupying the first `n` bytes; panics (`none`) when byte `n` is not a
character boundary (or `n` exceeds the byte length). -/
def slicePrefixBytes : List Char → ℕ → Option (List Char)
  | _, 0 => some []
  | [], _ + 1 => none
  | c :: cs, n + 1 =>
    if utf8Size c ≤ n + 1 then (slicePrefixBytes cs (n + 1 - utf8Size c)).map (c :: ·)
    else none

/-- The secondary-text display string from `generate_text`:
`if secondary_text.len() > 30 { format!("{}...", &secondary_text[0..27]) }
else { secondary_text.to_string() }`.  `len()` counts bytes and the byte
slice panics on a non-boundary, hence the `Option`. -/
def displayedSecondary (s : List Char) : Option (List Char) :=
  if 30 < utf8Len s then
    (slicePrefixBytes s 27).map (· ++ ['.', '.', '.'])
  else some s

/-- ASCII upper-casing, modelling `str::to_uppercase`.  (Rust applies the
full Unicode mapping; the two agree on ASCII, and no theorem below depends
on glyph ink, which is all the cased text influences.) -/
def asciiUpper (s : List Char) : List Char :=
  s.map fun c => if 'a' ≤ c ∧ c ≤ 'z' then Char.ofNat (c.toNat - 32) else c

/-- Default primary text, `unwrap_or("COMING SOON")`. -/
def comingSoon : List Char := "COMING SOON".toList

/-- The fixed bottom caption `"FILE SELECTED"`. -/
def fileSelected : List Char := "FILE SELECTED".toList

/-- Source `generate_text`: light blue-gray background, primary text, optional
secondary text (upper-cased, possibly truncated) and bottom caption.
`width - text_width` and `height / 2 - char_height` are `usize`
subtractions; we model them with truncated `ℕ` subtraction (Rust would
panic in a debug build and wrap in release when they underflow — only
glyph placement, which no theorem below inspects, is affected). -/
def generate_text (w h : ℕ) (primary? secondary? : Option (List Char)) :
    Option (List Color) :=
  let bg : List Color := (List.range (w * h)).map fun _ => ⟨230, 235, 240, 255⟩
  let primary := primary?.getD comingSoon
  let char_width := 32
  let char_height := 40
  let char_padding := 4
  let text_width := utf8Len primary * (char_width + char_padding)
  let start_x := (w - text_width) / 2
  let start_y := h / 2 - char_height
  let b1 := draw_text bg w h primary start_x start_y char_width char_height
    char_padding ⟨30, 30, 180, 255⟩
  match secondary? with
  | none => some b1
  | some s =>
    match displayedSecondary s with
    | none => none
    | some display =>
      let smaller_char_width := 16
      let smaller_char_height := 20
      let smaller_padding := 2
      let secondary_text_width := utf8Len display * (smaller_char_width + smaller_padding)
      let secondary_x := (w - secondary_text_width) / 2
      let secondary_y := start_y + char_height + 40
      let b2 := draw_text b1 w h (asciiUpper display) secondary_x secondary_y
        smaller_char_width smaller_char_height smaller_padding ⟨20, 120, 20, 255⟩
      let small_char_width := 12
      let small_char_height := 15
      let small_padding := 1
      let info_text_width := utf8Len fileSelected * (small_char_width + small_padding)
      let info_x := (w - info_text_width) / 2
      let info_y := h - 60
      some (draw_text b2 w h fileSelected info_x info_y small_char_width
        small_char_height small_padding ⟨150, 50, 50, 255⟩)

/-! ### Debug overlay (`add_debug_borders`) -/

/-- Pixel indices of the top/bottom border loop: for `y < border_thickness
(= 3)`, the top row `y`, then — only when `height > border_thickness` —
the bottom row `height - 1 - y`. -/
def topBottomIdxs (w h : ℕ) : List ℕ :=
  (List.range 3).flatMap fun y =>
    ((List.range w).map fun x => y * w + x) ++
      (if 3 < h then (List.range w).map fun x => (h - 1 - y) * w + x else [])

/-- Pixel indices of the left/right border loop: for `x < 3`, the left
column `x`, then — only when `width > 3` — the right column `w - 1 - x`. -/
def leftRightIdxs (w h : ℕ) : List ℕ :=
  (List.range 3).flatMap fun x =>
    ((List.range h).map fun y => y * w + x) ++
      (if 3 < w then (List.range h).map fun y => y * w + (w - 1 - x) else [])

/-- Pixel indices of one 15×15 corner box with top-left pixel
`(x0, y0)`: `idx = (y0 + y) * bytes_per_row + (x0 + x) * 4`. -/
def boxIdxs (w x0 y0 : ℕ) : List ℕ :=
  (List.range 15).flatMap fun y =>
    (List.range 15).map fun x => (y0 + y) * w + (x0 + x)

/-- Source `add_debug_borders`: red 3px border (top/bottom then left/right loops,
all writes unchecked), then the corner boxes — top-left red
(unconditional), top-right green (`width > 15`), bottom-left blue
(`height > 15`), bottom-right yellow (both).  `none` models an
out-of-range write panic. -/
def add_debug_borders (b : List Color) (w h : ℕ) : Option (List Color) :=
  (paintAll b ⟨255, 0, 0, 255⟩ (topBottomIdxs w h)).bind fun b =>
  (paintAll b ⟨255, 0, 0, 255⟩ (leftRightIdxs w h)).bind fun b =>
  (paintAll b ⟨255, 0, 0, 255⟩ (boxIdxs w 0 0)).bind fun b =>
  (if 15 < w then paintAll b ⟨0, 255, 0, 255⟩ (boxIdxs w (w - 15) 0) else some b).bind fun b =>
  (if 15 < h then paintAll b ⟨0, 0, 255, 255⟩ (boxIdxs w 0 (h - 15)) else some b).bind fun b =>
  (if 15 < w ∧ 15 < h then
    paintAll b ⟨255, 255, 0, 255⟩ (boxIdxs w (w - 15) (h - 15)) else some b).bind fun b =>
  some b

/-! ### Pattern generation and renderer state operations -/

/-- The base pattern dispatch in `generate_source_pattern`. -/
def basePattern (pt : PatternType) (w h : ℕ) (p s : Option (List Char)) :
    Option (List Color) :=
  match pt with
  | .checkerboard => some (generate_checkerboard w h)
  | .gradient => some (generate_gradient w h)
  | .text => generate_text w h p s

/-- Core of `generate_source_pattern` without the state plumbing: base pattern,
then debug borders, packed into a `SourcePattern` with
`bytes_per_row = width * 4`. -/
def generatePattern (pt : PatternType) (w h : ℕ) (p s : Option (List Char)) :
    Option SourcePattern :=
  (basePattern pt w h p s).bind fun base =>
  (add_debug_borders base w h).bind fun buffer =>
  some ⟨buffer, w, h, w * 4⟩

/-- Source `generate_source_pattern`: regenerates and stores the cached pattern. -/
def generate_source_pattern (r : ImageRenderer) : Option ImageRenderer :=
  (generatePattern r.pattern_type r.source_width r.source_height
    r.primary_text r.secondary_text).bind fun sp =>
  some { r with source_pattern := some sp }

/-- Source `ImageRenderer::new`: fields initialised as in the source, then
`generate_source_pattern`. -/
def ImageRenderer.new (pt : PatternType) (w h : ℕ) : Option ImageRenderer :=
  generate_source_pattern
    { source_width := w, source_height := h, zoom_level := 1, view_x := 0,
      view_y := 0, pattern_type := pt, source_pattern := none,
      primary_text := none, secondary_text := none }

/-- Source `set_zoom`: `self.zoom_level = zoom.max(0.1).min(10.0)`. -/
def set_zoom (r : ImageRenderer) (zoom : ℚ) : ImageRenderer :=
  { r with zoom_level := min (max zoom (1 / 10)) 10 }

/-- Source `set_pan`: stores the raw values. -/
def set_pan (r : ImageRenderer) (x y : ℚ) : ImageRenderer :=
  { r with view_x := x, view_y := y }

/-- Source `change_pattern_type`: updates the kind and regenerates. -/
def change_pattern_type (r : ImageRenderer) (pt : PatternType) :
    Option ImageRenderer :=
  generate_source_pattern { r with pattern_type := pt }

/-- Source `set_text`: updates the texts; regenerates only in text mode. -/
def set_text (r : ImageRenderer) (p s : Option (List Char)) :
    Option ImageRenderer :=
  let r' := { r with primary_text := p, secondary_text := s }
  match r'.pattern_type with
  | .text => generate_source_pattern r'
  | _ => some r'

/-- Source `get_viewport_size`:
`((source_width as f64 * zoom) as usize, (source_height as f64 * zoom) as usize)`. -/
def get_viewport_size (r : ImageRenderer) : ℕ × ℕ :=
  (f64toUsize ((r.source_width : ℚ) * r.zoom_level),
   f64toUsize ((r.source_height : ℚ) * r.zoom_level))

/-- The body of the compositor loop in `render` at destination pixel
`(x, y)`: `scale_factor = 1.0 / zoom_level`, saturating-truncating casts,
clamping with `.min(source.width - 1)` / `.min(source.height - 1)`, then
the guarded copy (`src_idx + 3 < source.buffer.len()`), else the purple
sentinel.  (When `source.width = 0` the Rust `width - 1` wraps to
`usize::MAX` and the bounds check fails, yielding the sentinel; `ℕ`
subtraction gives `0` whose lookup in the then-empty buffer also yields
the sentinel.) -/
def render_pixel (src : SourcePattern) (zoom view_x view_y : ℚ) (x y : ℕ) : Color :=
  let scale_factor := 1 / zoom
  let start_src_x := f64toUsize (view_x * scale_factor)
  let start_src_y := f64toUsize (view_y * scale_factor)
  let src_x := start_src_x + f64toUsize ((x : ℚ) * scale_factor)
  let src_y := start_src_y + f64toUsize ((y : ℚ) * scale_factor)
  let src_x_clamped := min src_x (src.width - 1)
  let src_y_clamped := min src_y (src.height - 1)
  match src.buffer[src_y_clamped * src.width + src_x_clamped]? with
  | some c => c
  | none => ⟨128, 0, 128, 255⟩

/-- Source `render`, restricted to its algorithmic content: the viewport size and
the composited RGBA output buffer (pixel `(x, y)` at list index
`y * viewport_width + x`).  The `NSImage`/`NSBitmapImageRep` plumbing and
the possibility of a failed platform allocation are outside the model; if
no source pattern is cached the source loop leaves the fresh bitmap's
contents untouched, modelled as an unspecified all-zero buffer. -/
def ImageRenderer.render (r : ImageRenderer) : ℕ × ℕ × List Color :=
  let vw := (get_viewport_size r).1
  let vh := (get_viewport_size r).2
  match r.source_pattern with
  | some src =>
    (vw, vh, (List.range (vw * vh)).map fun p =>
      render_pixel src r.zoom_level r.view_x r.view_y (p % vw) (p / vw))
  | none => (vw, vh, (List.range (vw * vh)).map fun _ => ⟨0, 0, 0, 0⟩)

/-! ### Definitions taken from the specification's wording

These follow the spec text, not the source; the theorems below compare
them with the source-derived definitions above. -/

/-- Sampling rule exactly as the spec states it: `scale = 1 / zoom`,
`sx = floor(pan_x * scale) + floor(dx * scale)` (a signed integer),
likewise `sy`, each clamped to `[0, width - 1]` resp. `[0, height - 1]`,
then the RGBA quadruple is copied from the clamped address. -/
def spec_samplePixel (src : SourcePattern) (zoom pan_x pan_y : ℚ) (dx dy : ℕ) : Color :=
  let scale := 1 / zoom
  let sx : ℤ := ⌊pan_x * scale⌋ + ⌊(dx : ℚ) * scale⌋
  let sy : ℤ := ⌊pan_y * scale⌋ + ⌊(dy : ℚ) * scale⌋
  let sxc : ℤ := max 0 (min sx ((src.width : ℤ) - 1))
  let syc : ℤ := max 0 (min sy ((src.height : ℤ) - 1))
  (src.buffer[syc.toNat * src.width + sxc.toNat]?).getD ⟨128, 0, 128, 255⟩

/-- The source pixel index the code actually samples (amended formula):
the pan contribution saturates below at zero before the addition. -/
def amended_src_index (src : SourcePattern) (zoom pan_x pan_y : ℚ) (dx dy : ℕ) : ℕ :=
  let scale := 1 / zoom
  let sx := min ((⌊pan_x * scale⌋).toNat + (⌊(dx : ℚ) * scale⌋).toNat) (src.width - 1)
  let sy := min ((⌊pan_y * scale⌋).toNat + (⌊(dy : ℚ) * scale⌋).toNat) (src.height - 1)
  sy * src.width + sx

/-- Amended sampling rule: lookup at `amended_src_index` (with the purple
sentinel as the never-reached default for generated sources). -/
def amended_samplePixel (src : SourcePattern) (zoom pan_x pan_y : ℚ) (dx dy : ℕ) : Color :=
  (src.buffer[amended_src_index src zoom pan_x pan_y dx dy]?).getD ⟨128, 0, 128, 255⟩

/-- Viewport size exactly as the spec states it:
`(round(source_width * zoom), round(source_height * zoom))`. -/
def spec_viewport_size (w h : ℕ) (zoom : ℚ) : ℕ × ℕ :=
  ((round ((w : ℚ) * zoom)).toNat, (round ((h : ℚ) * zoom)).toNat)

/-- Gradient pixel exactly as the spec states it:
`(round(x/width*255), round(y/height*255), 200, 255)`. -/
def spec_gradientColor (w h x y : ℕ) : Color :=
  ⟨(round ((x : ℚ) / (w : ℚ) * 255)).toNat,
   (round ((y : ℚ) / (h : ℚ) * 255)).toNat, 200, 255⟩

/-- Secondary-text display string exactly as the claim states it:
truncated to the first 27 characters plus an ellipsis exactly when the
string exceeds 30 characters, otherwise kept whole. -/
def specDisplayText (s : List Char) : List Char :=
  if 30 < s.length then s.take 27 ++ ['.', '.', '.'] else s

/-- The C7 invariant, decidably: a cached pattern is present, its pixel
count matches its dimensions (`4 * pixels = width * 4 * height` in bytes),
and its dimensions agree with the renderer's. -/
def hasValidCache (r : ImageRenderer) : Bool :=
  match r.source_pattern with
  | some sp => 4 * sp.buffer.length == sp.width * 4 * sp.height
      && sp.width == r.source_width && sp.height == r.source_height
  | none => false

/-! ### Concrete instances used by witnesses and counterexamples -/

/-- A generated 15×15 checkerboard pattern (the smallest size the overlay
stamping survives). -/
def cb15 : SourcePattern := (generatePattern .checkerboard 15 15 none none).getD default

/-- A generated 16×15 checkerboard pattern. -/
def cb1615 : SourcePattern := (generatePattern .checkerboard 16 15 none none).getD default

/-- A renderer freshly constructed over a 15×15 checkerboard. -/
def r15 : ImageRenderer := (ImageRenderer.new .checkerboard 15 15).getD default

/-- The renderer `r15` after `change_pattern_type(Checkerboard)`. -/
def r15c : ImageRenderer := (change_pattern_type r15 .checkerboard).getD default

/-- The renderer `r15` after `set_text(Some("COMING SOON"), None)`. -/
def r15t : ImageRenderer := (set_text r15 (some comingSoon) none).getD default

/-- A bare 3×3 renderer state (no cache needed for viewport-size claims). -/
def r3state : ImageRenderer :=
  { source_width := 3, source_height := 3, zoom_level := 1, view_x := 0,
    view_y := 0, pattern_type := .checkerboard, source_pattern := none,
    primary_text := none, secondary_text := none }

/-- The 3×3 state with the in-range zoom 3/5 stored. -/
def rC2 : ImageRenderer := { r3state with zoom_level := 3 / 5 }

/-! ## Helper lemmas -/

theorem setP_eq_some {b b' : List Color} {i : ℕ} {c : Color}
    (h : setP b i c = some b') : b' = b.set i c ∧ i < b.length := by
  unfold setP at h
  split at h
  · exact ⟨(Option.some_injective _ h).symm, by assumption⟩
  · exact absurd h (by simp)

theorem paintAll_cons {b : List Color} {c : Color} {i : ℕ} {idxs : List ℕ} :
    paintAll b c (i :: idxs) = (setP b i c).bind fun b1 => paintAll b1 c idxs := by
  simp [paintAll, List.foldlM_cons]

theorem paintAll_length {c : Color} :
    ∀ {idxs : List ℕ} {b b' : List Color},
      paintAll b c idxs = some b' → b'.length = b.length := by
  intro idxs
  induction idxs with
  | nil => intro b b' h; simp [paintAll] at h; simp [h]
  | cons i rest ih =>
    intro b b' h
    rw [paintAll_cons] at h
    obtain ⟨b1, h1, h2⟩ := Option.bind_eq_some.mp h
    obtain ⟨rfl, -⟩ := setP_eq_some h1
    rw [ih h2]
    exact List.length_set ..

theorem paintAll_isSome_iff {c : Color} :
    ∀ {idxs : List ℕ} {b : List Color},
      (paintAll b c idxs).isSome ↔ ∀ i ∈ idxs, i < b.length := by
  intro idxs
  induction idxs with
  | nil => intro b; simp [paintAll]
  | cons j rest ih =>
    intro b
    rw [paintAll_cons]
    constructor
    · intro h
      obtain ⟨b', hb'⟩ := Option.isSome_iff_exists.mp h
      obtain ⟨b1, h1, h2⟩ := Option.bind_eq_some.mp hb'
      obtain ⟨rfl, hj⟩ := setP_eq_some h1
      intro i hi
      rcases List.mem_cons.mp hi with rfl | hi
      · exact hj
      · have := (ih.mp (Option.isSome_iff_exists.mpr ⟨b', h2⟩)) i hi
        simpa [List.length_set] using this
    · intro h
      have hj : j < b.length := h j (List.mem_cons_self ..)
      have h1 : setP b j c = some (b.set j c) := by simp [setP, hj]
      rw [h1]
      simp only [Option.some_bind]
      exact ih.mpr fun i hi => by
        simpa [List.length_set] using h i (List.mem_cons_of_mem _ hi)

theorem paintAll_getElem_not_mem {c : Color} :
    ∀ {idxs : List ℕ} {b b' : List Color} {p : ℕ},
      paintAll b c idxs = some b' → p ∉ idxs → b'[p]? = b[p]? := by
  intro idxs
  induction idxs with
  | nil => intro b b' p h _; simp [paintAll] at h; simp [h]
  | cons i rest ih =>
    intro b b' p h hp
    rw [paintAll_cons] at h
    obtain ⟨b1, h1, h2⟩ := Option.bind_eq_some.mp h
    obtain ⟨rfl, -⟩ := setP_eq_some h1
    have hpi : p ≠ i := fun hh => hp (hh ▸ List.mem_cons_self ..)
    have hpr : p ∉ rest := fun hh => hp (List.mem_cons_of_mem _ hh)
    rw [ih h2 hpr, List.getElem?_set_ne (Ne.symm hpi)]

theorem paintAll_getElem_mem {c : Color} :
    ∀ {idxs : List ℕ} {b b' : List Color} {p : ℕ},
      paintAll b c idxs = some b' → p ∈ idxs → b'[p]? = some c := by
  intro idxs
  induction idxs with
  | nil => intro b b' p _ hp; simp at hp
  | cons i rest ih =>
    intro b b' p h hp
    rw [paintAll_cons] at h
    obtain ⟨b1, h1, h2⟩ := Option.bind_eq_some.mp h
    obtain ⟨rfl, hlt⟩ := setP_eq_some h1
    by_cases hpr : p ∈ rest
    · exact ih h2 hpr
    · rcases List.mem_cons.mp hp with rfl | hh
      · rw [paintAll_getElem_not_mem h2 hpr]
        exact List.getElem?_set_self hlt
      · exact absurd hh hpr

theorem foldl_setSkip_length {c : Color} :
    ∀ (idxs : List ℕ) (b : List Color),
      (idxs.foldl (fun acc i => setSkip acc i c) b).length = b.length := by
  intro idxs
  induction idxs with
  | nil => intro b; rfl
  | cons i rest ih =>
    intro b
    rw [List.foldl_cons, ih]
    unfold setSkip
    split <;> simp

theorem draw_text_length {b : List Color} {w h : ℕ} {text : List Char}
    {sx sy cw ch pad : ℕ} {c : Color} :
    (draw_text b w h text sx sy cw ch pad c).length = b.length :=
  foldl_setSkip_length ..

/-- Index arithmetic: a pixel with in-range coordinates is in range. -/
theorem pix_lt {x w y h : ℕ} (hx : x < w) (hy : y < h) : y * w + x < w * h := by
  calc y * w + x < (y + 1) * w := by rw [Nat.succ_mul]; omega
  _ ≤ h * w := Nat.mul_le_mul_right _ (by omega)
  _ = w * h := Nat.mul_comm ..

theorem pix_div {x w y : ℕ} (hx : x < w) : (y * w + x) / w = y := by
  rw [Nat.mul_comm y w, Nat.mul_add_div (by omega : 0 < w), Nat.div_eq_of_lt hx]
  omega

theorem pix_mod {x w y : ℕ} (hx : x < w) : (y * w + x) % w = x := by
  rw [Nat.mul_comm y w, Nat.mul_add_mod, Nat.mod_eq_of_lt hx]

/-- Index arithmetic: pixel coordinates are recoverable from the index. -/
theorem pix_inj {x x' w y y' : ℕ} (hx : x < w) (hx' : x' < w)
    (hp : y * w + x = y' * w + x') : y = y' ∧ x = x' := by
  have hy : y = y' := by
    have h1 := pix_div (y := y) hx
    have h2 := pix_div (y := y') hx'
    rw [← h1, ← h2, hp]
  refine ⟨hy, ?_⟩
  subst hy
  omega

theorem mem_map_range_getElem {n : ℕ} {f : ℕ → Color} {p : ℕ} (hp : p < n) :
    ((List.range n).map f)[p]? = some (f p) := by
  rw [List.getElem?_map, List.getElem?_range hp]
  rfl

theorem generate_checkerboard_length {w h : ℕ} :
    (generate_checkerboard w h).length = w * h := by
  simp [generate_checkerboard]

theorem generate_gradient_length {w h : ℕ} :
    (generate_gradient w h).length = w * h := by
  simp [generate_gradient]

theorem generate_gradient_getElem {w h x y : ℕ} (hx : x < w) (hy : y < h) :
    (generate_gradient w h)[y * w + x]? = some (gradientColor w h x y) := by
  rw [generate_gradient, mem_map_range_getElem (pix_lt hx hy), pix_mod hx, pix_div hx]

theorem generate_text_length {w h : ℕ} {p s : Option (List Char)} {bl : List Color}
    (hgen : generate_text w h p s = some bl) : bl.length = w * h := by
  unfold generate_text at hgen
  rcases s with - | s
  · simp only [Option.some_inj] at hgen
    rw [← hgen, draw_text_length]
    simp
  · simp only at hgen
    rcases hd : displayedSecondary s with - | display
    · rw [hd] at hgen; exact absurd hgen (by simp)
    · rw [hd] at hgen
      simp only [Option.some_inj] at hgen
      rw [← hgen, draw_text_length, draw_text_length, draw_text_length]
      simp

theorem basePattern_length {pt : PatternType} {w h : ℕ} {p s : Option (List Char)}
    {bl : List Color} (hgen : basePattern pt w h p s = some bl) :
    bl.length = w * h := by
  cases pt <;> simp only [basePattern] at hgen
  · rw [← Option.some_inj.mp hgen]; exact generate_checkerboard_length
  · rw [← Option.some_inj.mp hgen]; exact generate_gradient_length
  · exact generate_text_length hgen

/-! ### Membership in the overlay index lists -/

theorem top_mem {w h y x : ℕ} (hy : y < 3) (hx : x < w) :
    y * w + x ∈ topBottomIdxs w h := by
  simp only [topBottomIdxs, List.mem_flatMap, List.mem_range]
  exact ⟨y, hy, List.mem_append_left _ (List.mem_map.mpr ⟨x, List.mem_range.mpr hx, rfl⟩)⟩

theorem bottom_mem {w h y x : ℕ} (hy : y < 3) (hx : x < w) (hh : 3 < h) :
    (h - 1 - y) * w + x ∈ topBottomIdxs w h := by
  simp only [topBottomIdxs, List.mem_flatMap, List.mem_range]
  refine ⟨y, hy, List.mem_append_right _ ?_⟩
  rw [if_pos hh]
  exact List.mem_map.mpr ⟨x, List.mem_range.mpr hx, rfl⟩

theorem left_mem {w h y x : ℕ} (hx : x < 3) (hy : y < h) :
    y * w + x ∈ leftRightIdxs w h := by
  simp only [leftRightIdxs, List.mem_flatMap, List.mem_range]
  exact ⟨x, hx, List.mem_append_left _ (List.mem_map.mpr ⟨y, List.mem_range.mpr hy, rfl⟩)⟩

theorem right_mem {w h y x : ℕ} (hx : x < 3) (hy : y < h) (hw : 3 < w) :
    y * w + (w - 1 - x) ∈ leftRightIdxs w h := by
  simp only [leftRightIdxs, List.mem_flatMap, List.mem_range]
  refine ⟨x, hx, List.mem_append_right _ ?_⟩
  rw [if_pos hw]
  exact List.mem_map.mpr ⟨y, List.mem_range.mpr hy, rfl⟩

theorem box_mem {w x0 y0 y x : ℕ} (hy : y < 15) (hx : x < 15) :
    (y0 + y) * w + (x0 + x) ∈ boxIdxs w x0 y0 := by
  simp only [boxIdxs, List.mem_flatMap, List.mem_range]
  exact ⟨y, hy, List.mem_map.mpr ⟨x, List.mem_range.mpr hx, rfl⟩⟩

theorem of_mem_topBottomIdxs {w h p : ℕ} (hp : p ∈ topBottomIdxs w h) :
    ∃ y x, y < 3 ∧ x < w ∧ (p = y * w + x ∨ (3 < h ∧ p = (h - 1 - y) * w + x)) := by
  simp only [topBottomIdxs, List.mem_flatMap, List.mem_range, List.mem_append,
    List.mem_map] at hp
  obtain ⟨y, hy, hcase⟩ := hp
  rcases hcase with ⟨x, hx, rfl⟩ | hbot
  · exact ⟨y, x, hy, hx, Or.inl rfl⟩
  · by_cases hh : 3 < h
    · rw [if_pos hh] at hbot
      obtain ⟨x, hx, rfl⟩ := List.mem_map.mp hbot
      exact ⟨y, x, hy, List.mem_range.mp hx, Or.inr ⟨hh, rfl⟩⟩
    · rw [if_neg hh] at hbot
      exact absurd hbot (by simp)

theorem of_mem_leftRightIdxs {w h p : ℕ} (hp : p ∈ leftRightIdxs w h) :
    ∃ y x, x < 3 ∧ y < h ∧ (p = y * w + x ∨ (3 < w ∧ p = y * w + (w - 1 - x))) := by
  simp only [leftRightIdxs, List.mem_flatMap, List.mem_range, List.mem_append,
    List.mem_map] at hp
  obtain ⟨x, hx, hcase⟩ := hp
  rcases hcase with ⟨y, hy, rfl⟩ | hright
  · exact ⟨y, x, hx, hy, Or.inl rfl⟩
  · by_cases hw : 3 < w
    · rw [if_pos hw] at hright
      obtain ⟨y, hy, rfl⟩ := List.mem_map.mp hright
      exact ⟨y, x, hx, List.mem_range.mp hy, Or.inr ⟨hw, rfl⟩⟩
    · rw [if_neg hw] at hright
      exact absurd hright (by simp)

theorem of_mem_boxIdxs {w x0 y0 p : ℕ} (hp : p ∈ boxIdxs w x0 y0) :
    ∃ y x, y < 15 ∧ x < 15 ∧ p = (y0 + y) * w + (x0 + x) := by
  simp only [boxIdxs, List.mem_flatMap, List.mem_range, List.mem_map] at hp
  obtain ⟨y, hy, x, hx, rfl⟩ := hp
  exact ⟨y, x, hy, hx, rfl⟩

/-! ### Decomposition and properties of the overlay -/

theorem optStep {α β : Type} {o : Option α} {f : α → Option β} {r : β}
    (h : o.bind f = some r) : ∃ a, o = some a ∧ f a = some r := by
  cases o with
  | none => exact absurd h (by simp)
  | some a => exact ⟨a, rfl, by simpa using h⟩

theorem borders_decomp {b b' : List Color} {w h : ℕ}
    (hdb : add_debug_borders b w h = some b') :
    ∃ b1 b2 b3 b4 b5,
      paintAll b ⟨255, 0, 0, 255⟩ (topBottomIdxs w h) = some b1 ∧
      paintAll b1 ⟨255, 0, 0, 255⟩ (leftRightIdxs w h) = some b2 ∧
      paintAll b2 ⟨255, 0, 0, 255⟩ (boxIdxs w 0 0) = some b3 ∧
      (if 15 < w then paintAll b3 ⟨0, 255, 0, 255⟩ (boxIdxs w (w - 15) 0)
        else some b3) = some b4 ∧
      (if 15 < h then paintAll b4 ⟨0, 0, 255, 255⟩ (boxIdxs w 0 (h - 15))
        else some b4) = some b5 ∧
      (if 15 < w ∧ 15 < h then
        paintAll b5 ⟨255, 255, 0, 255⟩ (boxIdxs w (w - 15) (h - 15))
        else some b5) = some b' := by
  unfold add_debug_borders at hdb
  obtain ⟨b1, h1, hdb⟩ := optStep hdb
  obtain ⟨b2, h2, hdb⟩ := optStep hdb
  obtain ⟨b3, h3, hdb⟩ := optStep hdb
  obtain ⟨b4, h4, hdb⟩ := optStep hdb
  obtain ⟨b5, h5, hdb⟩ := optStep hdb
  obtain ⟨b6, h6, hdb⟩ := optStep hdb
  have hb6 : b6 = b' := Option.some_inj.mp hdb
  exact ⟨b1, b2, b3, b4, b5, h1, h2, h3, h4, h5, hb6 ▸ h6⟩

theorem borders_length {b b' : List Color} {w h : ℕ}
    (hdb : add_debug_borders b w h = some b') : b'.length = b.length := by
  obtain ⟨b1, b2, b3, b4, b5, h1, h2, h3, h4, h5, h6⟩ := borders_decomp hdb
  have l1 := paintAll_length h1
  have l2 := paintAll_length h2
  have l3 := paintAll_length h3
  have l4 : b4.length = b3.length := by
    split at h4
    · exact paintAll_length h4
    · rw [← Option.some_inj.mp h4]
  have l5 : b5.length = b4.length := by
    split at h5
    · exact paintAll_length h5
    · rw [← Option.some_inj.mp h5]
  have l6 : b'.length = b5.length := by
    split at h6
    · exact paintAll_length h6
    · rw [← Option.some_inj.mp h6]
  omega

/-- The overlay stamping succeeds (panics nowhere) precisely when the
buffer is at least 15×15: the bottom/right edges and three of the corner
boxes are guarded, but the top edge, left edge and the top-left corner
box are not. -/
theorem borders_isSome_iff {b : List Color} {w h : ℕ} (hlen : b.length = w * h) :
    (add_debug_borders b w h).isSome ↔ 15 ≤ w ∧ 15 ≤ h := by
  constructor
  · intro hs
    obtain ⟨b', hb'⟩ := Option.isSome_iff_exists.mp hs
    obtain ⟨b1, b2, b3, b4, b5, h1, h2, h3, h4, h5, h6⟩ := borders_decomp hb'
    have l2 : b2.length = w * h := by
      rw [paintAll_length h2, paintAll_length h1, hlen]
    have htl := paintAll_isSome_iff.mp (Option.isSome_iff_exists.mpr ⟨b3, h3⟩)
    have hbig : 14 * w + 14 < w * h := by
      have := htl _ (@box_mem w 0 0 14 14 (by omega) (by omega))
      simpa [l2] using this
    have hpos : 14 < w * h := by
      have := htl _ (@box_mem w 0 0 0 14 (by omega) (by omega))
      simpa [l2] using this
    have hw1 : 1 ≤ w := by by_contra hc; push_neg at hc; interval_cases w <;> omega
    have hh15 : 15 ≤ h := by
      by_contra hc
      push_neg at hc
      have : w * h ≤ w * 14 := Nat.mul_le_mul_left w (by omega)
      have : w * h ≤ 14 * w := by omega
      omega
    refine ⟨?_, hh15⟩
    by_cases hstrict : 15 < h
    · -- the bottom-left box was drawn; its bottom-right pixel bounds `w`
      have hbl : paintAll b4 ⟨0, 0, 255, 255⟩ (boxIdxs w 0 (h - 15)) = some b5 := by
        rwa [if_pos hstrict] at h5
      have l4 : b4.length = w * h := by
        have l3 : b3.length = w * h := by rw [paintAll_length h3, l2]
        split at h4
        · rw [paintAll_length h4, l3]
        · rw [← Option.some_inj.mp h4, l3]
      have hmem := paintAll_isSome_iff.mp (Option.isSome_iff_exists.mpr ⟨b5, hbl⟩)
        _ (@box_mem w 0 (h - 15) 14 14 (by omega) (by omega))
      rw [l4] at hmem
      have he : h - 15 + 14 = h - 1 := by omega
      rw [he] at hmem
      have hexp : w * h = (h - 1) * w + w := by
        calc w * h = h * w := Nat.mul_comm ..
        _ = ((h - 1) + 1) * w := by congr 1; omega
        _ = (h - 1) * w + w := by rw [Nat.succ_mul]
      omega
    · -- `h = 15`; the unconditional top-left box bounds `w`
      have hh : h = 15 := by omega
      subst hh
      have : w * 15 = 15 * w := Nat.mul_comm ..
      omega
  · intro ⟨hw, hh⟩
    have tb : ∀ i ∈ topBottomIdxs w h, i < w * h := by
      intro i hi
      obtain ⟨y, x, hy, hx, hcase⟩ := of_mem_topBottomIdxs hi
      rcases hcase with rfl | ⟨-, rfl⟩
      · exact pix_lt hx (by omega)
      · exact pix_lt hx (by omega)
    have lr : ∀ i ∈ leftRightIdxs w h, i < w * h := by
      intro i hi
      obtain ⟨y, x, hx, hy, hcase⟩ := of_mem_leftRightIdxs hi
      rcases hcase with rfl | ⟨-, rfl⟩
      · exact pix_lt (by omega) hy
      · exact pix_lt (by omega) hy
    have box : ∀ x0 y0, x0 + 15 ≤ w → y0 + 15 ≤ h → ∀ i ∈ boxIdxs w x0 y0, i < w * h := by
      intro x0 y0 hx0 hy0 i hi
      obtain ⟨y, x, hy, hx, rfl⟩ := of_mem_boxIdxs hi
      exact pix_lt (by omega) (by omega)
    obtain ⟨b1, h1⟩ := Option.isSome_iff_exists.mp
      ((@paintAll_isSome_iff ⟨255, 0, 0, 255⟩ (topBottomIdxs w h) b).mpr
        (fun i hi => hlen ▸ tb i hi))
    have l1 : b1.length = w * h := by rw [paintAll_length h1, hlen]
    obtain ⟨b2, h2⟩ := Option.isSome_iff_exists.mp
      ((@paintAll_isSome_iff ⟨255, 0, 0, 255⟩ (leftRightIdxs w h) b1).mpr
        (fun i hi => l1 ▸ lr i hi))
    have l2 : b2.length = w * h := by rw [paintAll_length h2, l1]
    obtain ⟨b3, h3⟩ := Option.isSome_iff_exists.mp
      ((@paintAll_isSome_iff ⟨255, 0, 0, 255⟩ (boxIdxs w 0 0) b2).mpr
        (fun i hi => l2 ▸ box 0 0 (by omega) (by omega) i hi))
    have l3 : b3.length = w * h := by rw [paintAll_length h3, l2]
    have step : ∀ (bb : List Color) (cond : Prop), ∀ _ : Decidable cond,
        ∀ (c : Color) (x0 y0 : ℕ),
        bb.length = w * h → x0 + 15 ≤ w → y0 + 15 ≤ h →
        ∃ bb', (if cond then paintAll bb c (boxIdxs w x0 y0) else some bb) = some bb'
          ∧ bb'.length = w * h := by
      intro bb cond _ c x0 y0 hbl hx0 hy0
      by_cases hc : cond
      · rw [if_pos hc]
        obtain ⟨bb', hbb'⟩ := Option.isSome_iff_exists.mp
          ((@paintAll_isSome_iff c (boxIdxs w x0 y0) bb).mpr
            (fun i hi => hbl ▸ box x0 y0 hx0 hy0 i hi))
        exact ⟨bb', hbb', by rw [paintAll_length hbb', hbl]⟩
      · rw [if_neg hc]
        exact ⟨bb, rfl, hbl⟩
    obtain ⟨b4, h4, l4⟩ := step b3 (15 < w) inferInstance (⟨0, 255, 0, 255⟩ : Color)
      (w - 15) 0 l3 (by omega) (by omega)
    obtain ⟨b5, h5, l5⟩ := step b4 (15 < h) inferInstance (⟨0, 0, 255, 255⟩ : Color)
      0 (h - 15) l4 (by omega) (by omega)
    obtain ⟨b6, h6, -⟩ := step b5 (15 < w ∧ 15 < h) inferInstance
      (⟨255, 255, 0, 255⟩ : Color) (w - 15) (h - 15) l5 (by omega) (by omega)
    apply Option.isSome_iff_exists.mpr
    refine ⟨b6, ?_⟩
    unfold add_debug_borders
    rw [h1, Option.some_bind, h2, Option.some_bind, h3, Option.some_bind, h4,
      Option.some_bind, h5, Option.some_bind, h6, Option.some_bind]

/-- After a successful overlay, every ring pixel outside the drawn
top-right, bottom-left and bottom-right corner boxes is pure red
(a pixel inside the unconditional top-left box is red anyway). -/
theorem borders_ring_red {b b' : List Color} {w h x y : ℕ}
    (hlen : b.length = w * h)
    (hdb : add_debug_borders b w h = some b')
    (hx : x < w) (hy : y < h)
    (hring : x < 3 ∨ w - 3 ≤ x ∨ y < 3 ∨ h - 3 ≤ y)
    (hTR : ¬(15 < w ∧ w - 15 ≤ x ∧ y < 15))
    (hBL : ¬(15 < h ∧ x < 15 ∧ h - 15 ≤ y))
    (hBR : ¬(15 < w ∧ 15 < h ∧ w - 15 ≤ x ∧ h - 15 ≤ y)) :
    b'[y * w + x]? = some ⟨255, 0, 0, 255⟩ := by
  obtain ⟨hw15, hh15⟩ :=
    (borders_isSome_iff hlen).mp (Option.isSome_iff_exists.mpr ⟨b', hdb⟩)
  obtain ⟨b1, b2, b3, b4, b5, h1, h2, h3, h4, h5, h6⟩ := borders_decomp hdb
  have hmemEdges : y * w + x ∈ topBottomIdxs w h ∨ y * w + x ∈ leftRightIdxs w h := by
    rcases hring with hc | hc | hc | hc
    · exact Or.inr (left_mem hc hy)
    · right
      have hxe : y * w + x = y * w + (w - 1 - (w - 1 - x)) := by
        congr 1
        omega
      rw [hxe]
      exact right_mem (by omega) hy (by omega)
    · exact Or.inl (top_mem hc hx)
    · left
      have hye : y * w + x = (h - 1 - (h - 1 - y)) * w + x := by
        congr 2
        omega
      rw [hye]
      exact bottom_mem (by omega) hx (by omega)
  have hred2 : b2[y * w + x]? = some ⟨255, 0, 0, 255⟩ := by
    by_cases hm : y * w + x ∈ leftRightIdxs w h
    · exact paintAll_getElem_mem h2 hm
    · rcases hmemEdges with hm1 | hm1
      · rw [paintAll_getElem_not_mem h2 hm]
        exact paintAll_getElem_mem h1 hm1
      · exact absurd hm1 hm
  have hred3 : b3[y * w + x]? = some ⟨255, 0, 0, 255⟩ := by
    by_cases hm : y * w + x ∈ boxIdxs w 0 0
    · exact paintAll_getElem_mem h3 hm
    · rw [paintAll_getElem_not_mem h3 hm]
      exact hred2
  have hred4 : b4[y * w + x]? = some ⟨255, 0, 0, 255⟩ := by
    by_cases hc : 15 < w
    · rw [if_pos hc] at h4
      have hnm : y * w + x ∉ boxIdxs w (w - 15) 0 := by
        intro hm
        obtain ⟨y', x', hy', hx', hp⟩ := of_mem_boxIdxs hm
        rw [Nat.zero_add] at hp
        obtain ⟨hyy, hxx⟩ := pix_inj hx (show w - 15 + x' < w by omega) hp
        exact hTR ⟨hc, by omega, by omega⟩
      rw [paintAll_getElem_not_mem h4 hnm]
      exact hred3
    · rw [if_neg hc] at h4
      rw [← Option.some_inj.mp h4]
      exact hred3
  have hred5 : b5[y * w + x]? = some ⟨255, 0, 0, 255⟩ := by
    by_cases hc : 15 < h
    · rw [if_pos hc] at h5
      have hnm : y * w + x ∉ boxIdxs w 0 (h - 15) := by
        intro hm
        obtain ⟨y', x', hy', hx', hp⟩ := of_mem_boxIdxs hm
        rw [Nat.zero_add] at hp
        obtain ⟨hyy, hxx⟩ := pix_inj hx (show x' < w by omega) hp
        exact hBL ⟨hc, by omega, by omega⟩
      rw [paintAll_getElem_not_mem h5 hnm]
      exact hred4
    · rw [if_neg hc] at h5
      rw [← Option.some_inj.mp h5]
      exact hred4
  by_cases hc : 15 < w ∧ 15 < h
  · rw [if_pos hc] at h6
    have hnm : y * w + x ∉ boxIdxs w (w - 15) (h - 15) := by
      intro hm
      obtain ⟨y', x', hy', hx', hp⟩ := of_mem_boxIdxs hm
      obtain ⟨hyy, hxx⟩ := pix_inj hx (show w - 15 + x' < w by omega) hp
      exact hBR ⟨hc.1, hc.2, by omega, by omega⟩
    rw [paintAll_getElem_not_mem h6 hnm]
    exact hred5
  · rw [if_neg hc] at h6
    rw [← Option.some_inj.mp h6]
    exact hred5

/-- A successfully generated pattern records its dimensions, has a
consistent buffer, and only exists for sizes of at least 15×15. -/
theorem generatePattern_spec {pt : PatternType} {w h : ℕ} {p s : Option (List Char)}
    {sp : SourcePattern} (hgen : generatePattern pt w h p s = some sp) :
    sp.width = w ∧ sp.height = h ∧ sp.buffer.length = w * h ∧
      sp.bytes_per_row = w * 4 ∧ 15 ≤ w ∧ 15 ≤ h := by
  unfold generatePattern at hgen
  obtain ⟨base, hbase, hgen⟩ := optStep hgen
  obtain ⟨buf, hbuf, hgen⟩ := optStep hgen
  have hsp : sp = ⟨buf, w, h, w * 4⟩ := (Option.some_inj.mp hgen).symm
  have hblen : base.length = w * h := basePattern_length hbase
  have hlen : buf.length = w * h := by rw [borders_length hbuf, hblen]
  obtain ⟨hw, hh⟩ :=
    (borders_isSome_iff hblen).mp (Option.isSome_iff_exists.mpr ⟨buf, hbuf⟩)
  subst hsp
  exact ⟨rfl, rfl, hlen, rfl, hw, hh⟩

theorem utf8Len_ascii {s : List Char} (h : ∀ c ∈ s, c.toNat < 128) :
    utf8Len s = s.length := by
  induction s with
  | nil => rfl
  | cons c cs ih =>
    have hc : utf8Size c = 1 := by
      unfold utf8Size
      rw [if_pos (h c (List.mem_cons_self ..))]
    simp only [utf8Len, List.map_cons, List.sum_cons, hc, List.length_cons]
    have := ih (fun d hd => h d (List.mem_cons_of_mem _ hd))
    simp only [utf8Len] at this
    omega

theorem slicePrefixBytes_ascii {s : List Char} (h : ∀ c ∈ s, c.toNat < 128) :
    ∀ n, n ≤ s.length → slicePrefixBytes s n = some (s.take n) := by
  induction s with
  | nil =>
    intro n hn
    have : n = 0 := by simpa using hn
    subst this
    rfl
  | cons c cs ih =>
    intro n hn
    cases n with
    | zero => rfl
    | succ m =>
      have hc : utf8Size c = 1 := by
        unfold utf8Size
        rw [if_pos (h c (List.mem_cons_self ..))]
      unfold slicePrefixBytes
      rw [if_pos (by omega), hc]
      have hm : m + 1 - 1 = m := by omega
      rw [hm, ih (fun d hd => h d (List.mem_cons_of_mem _ hd)) m (by simpa using hn)]
      rfl

/-- Helper rational bounds used by witnesses. -/
theorem tenth_le_one : (1 : ℚ) / 10 ≤ 1 := by norm_num

theorem one_le_ten : (1 : ℚ) ≤ 10 := by norm_num

theorem tenth_le_threeFifths : (1 : ℚ) / 10 ≤ 3 / 5 := by norm_num

theorem threeFifths_le_ten : (3 : ℚ) / 5 ≤ 10 := by norm_num

/-! ## Claims -/

/-- C2 (amended): for every renderer and every zoom `z ∈ [0.1, 10]`, the
viewport produced after `set_zoom(z)` is
`(⌊source_width * z⌋, ⌊source_height * z⌋)` — truncation toward zero, not
rounding to nearest. -/
theorem C2_viewport_truncates (r : ImageRenderer) (z : ℚ)
    (h1 : 1 / 10 ≤ z) (h2 : z ≤ 10) :
    get_viewport_size (set_zoom r z)
      = ((⌊(r.source_width : ℚ) * z⌋).toNat, (⌊(r.source_height : ℚ) * z⌋).toNat) := by
  unfold get_viewport_size set_zoom f64toUsize
  simp only
  rw [max_eq_left h1, min_eq_left h2]

/-- C2 counterexample: a 3×3 source at the in-range zoom 3/5 gets the
1×1 viewport `(⌊1.8⌋, ⌊1.8⌋)`, not the `(round(1.8), round(1.8)) = (2, 2)`
the spec's rounding formula demands. -/
theorem C2_counterexample :
    (1 / 10 ≤ rC2.zoom_level ∧ rC2.zoom_level ≤ 10)
    ∧ get_viewport_size rC2
        ≠ spec_viewport_size rC2.source_width rC2.source_height rC2.zoom_level := by
  refine ⟨⟨by norm_num [rC2, r3state], by norm_num [rC2, r3state]⟩, ?_⟩
  have e1 : rC2.source_width = 3 := rfl
  have e2 : rC2.source_height = 3 := rfl
  have e3 : rC2.zoom_level = 3 / 5 := rfl
  have hcode : get_viewport_size rC2 = (1, 1) := by
    unfold get_viewport_size f64toUsize
    rw [e1, e2, e3]
    norm_num [Int.floor_eq_iff]
  have hspec : spec_viewport_size rC2.source_width rC2.source_height
      rC2.zoom_level = (2, 2) := by
    rw [e1, e2, e3]
    unfold spec_viewport_size
    simp only [round_eq]
    norm_num [Int.floor_eq_iff]
    decide
  rw [hcode, hspec]
  decide

/-- C2 witness: the amended theorem applied at the 3×3 state and zoom 3/5. -/
theorem C2_witness :
    get_viewport_size (set_zoom r3state (3 / 5))
      = ((⌊(r3state.source_width : ℚ) * (3 / 5)⌋).toNat,
         (⌊(r3state.source_height : ℚ) * (3 / 5)⌋).toNat) :=
  C2_viewport_truncates r3state (3 / 5) tenth_le_threeFifths threeFifths_le_ten

/-- C5 (amended): the gradient pattern sets every in-range pixel `(x, y)`
to red `⌊x/width*255⌋`, green `⌊y/height*255⌋` (truncation toward zero, not
rounding to nearest), blue 200 and alpha 255 — before the debug overlay. -/
theorem C5_gradient_pixel (w h x y : ℕ) (hx : x < w) (hy : y < h) :
    (generate_gradient w h)[y * w + x]? =
      some ⟨(⌊(x : ℚ) / (w : ℚ) * 255⌋).toNat,
            (⌊(y : ℚ) / (h : ℚ) * 255⌋).toNat, 200, 255⟩ := by
  rw [generate_gradient_getElem hx hy]
  have hwn : 0 < w := by omega
  have hhn : 0 < h := by omega
  have hw0 : (0 : ℚ) < (w : ℚ) := by exact_mod_cast hwn
  have hh0 : (0 : ℚ) < (h : ℚ) := by exact_mod_cast hhn
  have hr : (x : ℚ) / (w : ℚ) * 255 < 255 := by
    have h1 : (x : ℚ) / (w : ℚ) < 1 := by
      rw [div_lt_one hw0]
      exact_mod_cast hx
    nlinarith
  have hg : (y : ℚ) / (h : ℚ) * 255 < 255 := by
    have h1 : (y : ℚ) / (h : ℚ) < 1 := by
      rw [div_lt_one hh0]
      exact_mod_cast hy
    nlinarith
  have hr' : (⌊(x : ℚ) / (w : ℚ) * 255⌋).toNat ≤ 255 := by
    have h2 : ⌊(x : ℚ) / (w : ℚ) * 255⌋ < (255 : ℤ) :=
      Int.floor_lt.mpr (by exact_mod_cast hr)
    omega
  have hg' : (⌊(y : ℚ) / (h : ℚ) * 255⌋).toNat ≤ 255 := by
    have h2 : ⌊(y : ℚ) / (h : ℚ) * 255⌋ < (255 : ℤ) :=
      Int.floor_lt.mpr (by exact_mod_cast hg)
    omega
  unfold gradientColor f64toU8
  rw [Nat.min_eq_left hr', Nat.min_eq_left hg']

/-- C5 counterexample: on a 4×4 gradient, pixel `(1, 0)` has red channel
`⌊1/4*255⌋ = ⌊63.75⌋ = 63`, while the spec's rounding formula demands
`round(63.75) = 64`. -/
theorem C5_counterexample :
    (generate_gradient 4 4)[0 * 4 + 1]? ≠ some (spec_gradientColor 4 4 1 0) := by
  have h1 : (generate_gradient 4 4)[0 * 4 + 1]? = some (gradientColor 4 4 1 0) :=
    generate_gradient_getElem (by norm_num) (by norm_num)
  have h2 : gradientColor 4 4 1 0 = ⟨63, 0, 200, 255⟩ := by
    unfold gradientColor f64toU8
    norm_num [Int.floor_eq_iff]
    decide
  have h3 : spec_gradientColor 4 4 1 0 = ⟨64, 0, 200, 255⟩ := by
    unfold spec_gradientColor
    simp only [round_eq]
    norm_num [Int.floor_eq_iff]
    decide
  rw [h1, h2, h3]
  decide

/-- C5 witness: the amended theorem applied at the 4×4 gradient, pixel
`(1, 0)`. -/
theorem C5_witness :
    (generate_gradient 4 4)[0 * 4 + 1]? =
      some ⟨(⌊((1 : ℕ) : ℚ) / ((4 : ℕ) : ℚ) * 255⌋).toNat,
            (⌊((0 : ℕ) : ℚ) / ((4 : ℕ) : ℚ) * 255⌋).toNat, 200, 255⟩ :=
  C5_gradient_pixel 4 4 1 0 (by decide) (by decide)

/-- C8 (amended): the secondary-text truncation counts UTF-8 bytes, not
characters: the string (later drawn upper-cased) is truncated to its first
27 bytes plus an ellipsis exactly when its byte length exceeds 30, and the
byte slice panics when byte 27 is not a character boundary.  For ASCII
strings — where bytes and characters coincide — the claim's
character-count description holds exactly. -/
theorem C8_secondary_truncation (s : List Char) (h : ∀ c ∈ s, c.toNat < 128) :
    displayedSecondary s = some (specDisplayText s) := by
  unfold displayedSecondary specDisplayText
  rw [utf8Len_ascii h]
  by_cases hlen : 30 < s.length
  · rw [if_pos hlen, if_pos hlen,
      slicePrefixBytes_ascii h 27 (by omega)]
    rfl
  · rw [if_neg hlen, if_neg hlen]

/-- C8 counterexample: sixteen copies of the two-byte character `à` form a
16-character string (so the claim says it is drawn in full), but its 32
bytes exceed 30, the code truncates, and the byte slice `[0..27]` falls
inside a character: the code panics instead of drawing the full string. -/
theorem C8_counterexample :
    displayedSecondary (List.replicate 16 'à') = none
    ∧ specDisplayText (List.replicate 16 'à') = List.replicate 16 'à' := by
  constructor
  · decide
  · decide

/-- C8 witness: the amended theorem applied to a 35-character ASCII
string, which is truncated to 27 characters plus the ellipsis. -/
theorem C8_witness :
    displayedSecondary (List.replicate 35 'A')
      = some (specDisplayText (List.replicate 35 'A')) :=
  C8_secondary_truncation (List.replicate 35 'A') (by decide)

/-- C9: `set_zoom(z)` stores `z` clamped to `[0.1, 10]`, changes nothing
else (in particular it neither renders nor regenerates the cached
pattern), a requested zoom of 15 is stored as 10, and the subsequent
viewport size is computed from zoom 10. -/
theorem C9_set_zoom_clamps (r : ImageRenderer) (z : ℚ) :
    (set_zoom r z).zoom_level = min (max z (1 / 10)) 10
    ∧ 1 / 10 ≤ (set_zoom r z).zoom_level
    ∧ (set_zoom r z).zoom_level ≤ 10
    ∧ (set_zoom r z).source_pattern = r.source_pattern
    ∧ (set_zoom r z).source_width = r.source_width
    ∧ (set_zoom r z).source_height = r.source_height
    ∧ (set_zoom r z).view_x = r.view_x
    ∧ (set_zoom r z).view_y = r.view_y
    ∧ (set_zoom r z).pattern_type = r.pattern_type
    ∧ (set_zoom r z).primary_text = r.primary_text
    ∧ (set_zoom r z).secondary_text = r.secondary_text
    ∧ (set_zoom r 15).zoom_level = 10
    ∧ get_viewport_size (set_zoom r 15)
        = (10 * r.source_width, 10 * r.source_height) := by
  have hclamp : (set_zoom r 15).zoom_level = 10 := by
    show min (max 15 (1 / 10)) 10 = 10
    rw [max_eq_left (by norm_num)]
    exact min_eq_right (by norm_num)
  refine ⟨rfl, le_min (le_max_right ..) (by norm_num), min_le_right .., rfl, rfl,
    rfl, rfl, rfl, rfl, rfl, rfl, hclamp, ?_⟩
  unfold get_viewport_size f64toUsize
  rw [hclamp]
  rw [show (set_zoom r 15).source_width = r.source_width from rfl]
  rw [show (set_zoom r 15).source_height = r.source_height from rfl]
  have e1 : (r.source_width : ℚ) * 10 = ((10 * r.source_width : ℕ) : ℚ) := by
    push_cast
    ring
  have e2 : (r.source_height : ℚ) * 10 = ((10 * r.source_height : ℕ) : ℚ) := by
    push_cast
    ring
  rw [e1, e2, Int.floor_natCast, Int.floor_natCast]
  constructor <;> omega

/-- C10: `change_pattern_type` modifies only the pattern kind and the
cached source pattern; zoom, both pan offsets, both text fields and the
source dimensions are unchanged. -/
theorem C10_change_pattern_frame (r : ImageRenderer) (pt : PatternType)
    (r' : ImageRenderer) (hc : change_pattern_type r pt = some r') :
    r'.zoom_level = r.zoom_level ∧ r'.view_x = r.view_x ∧ r'.view_y = r.view_y
    ∧ r'.primary_text = r.primary_text ∧ r'.secondary_text = r.secondary_text
    ∧ r'.source_width = r.source_width ∧ r'.source_height = r.source_height
    ∧ r'.pattern_type = pt := by
  unfold change_pattern_type generate_source_pattern at hc
  obtain ⟨sp, hsp, hc⟩ := optStep hc
  have hr' : r' = { r with pattern_type := pt, source_pattern := some sp } :=
    (Option.some_inj.mp hc).symm
  subst hr'
  exact ⟨rfl, rfl, rfl, rfl, rfl, rfl, rfl, rfl⟩

/-- C3 (amended): stamping the debug overlays on a consistent buffer
performs no out-of-range write precisely when the buffer is at least
15×15.  The guarded draws (bottom edge, right edge, and the top-right,
bottom-left and bottom-right corner boxes) are skipped when they do not
fit, but the top edge, the left edge and the top-left corner box are
stamped unguarded, so smaller buffers suffer an out-of-range write
(a panic), contrary to the original claim. -/
theorem C3_overlay_safety (b : List Color) (w h : ℕ) (hlen : b.length = w * h) :
    (add_debug_borders b w h).isSome ↔ (15 ≤ w ∧ 15 ≤ h) :=
  borders_isSome_iff hlen

/-- C3 counterexample: generating a 5×5 source pattern panics (the
unguarded top-left 15×15 corner box writes out of range), refuting
"no out-of-range buffer write and cannot panic" for every size. -/
theorem C3_counterexample :
    generatePattern .checkerboard 5 5 none none = none := by
  decide

/-- C3 witness: the amended safety equivalence applied to a concrete
15×15 buffer. -/
theorem C3_witness :
    (add_debug_borders (List.replicate 225 (⟨0, 0, 0, 0⟩ : Color)) 15 15).isSome
      ↔ (15 ≤ 15 ∧ 15 ≤ 15) :=
  C3_overlay_safety (List.replicate 225 (⟨0, 0, 0, 0⟩ : Color)) 15 15 (by decide)

/-- C4 (amended): in every successfully generated source pattern with
width and height above 3, every pixel of the outer 3-pixel ring that is
not covered by a drawn colored corner box (green top-right, blue
bottom-left, yellow bottom-right — each stamped after the red border) is
pure red `(255, 0, 0, 255)`; where those boxes overlap the ring the box
color shows instead. -/
theorem C4_ring_red (pt : PatternType) (w h : ℕ) (p s : Option (List Char))
    (sp : SourcePattern) (hgen : generatePattern pt w h p s = some sp)
    (hw3 : 3 < w) (hh3 : 3 < h) (x y : ℕ) (hx : x < w) (hy : y < h)
    (hring : x < 3 ∨ w - 3 ≤ x ∨ y < 3 ∨ h - 3 ≤ y)
    (hTR : ¬(15 < w ∧ w - 15 ≤ x ∧ y < 15))
    (hBL : ¬(15 < h ∧ x < 15 ∧ h - 15 ≤ y))
    (hBR : ¬(15 < w ∧ 15 < h ∧ w - 15 ≤ x ∧ h - 15 ≤ y)) :
    sp.buffer[y * w + x]? = some ⟨255, 0, 0, 255⟩ := by
  unfold generatePattern at hgen
  obtain ⟨base, hbase, hgen⟩ := optStep hgen
  obtain ⟨buf, hbuf, hgen⟩ := optStep hgen
  have hsp : sp = ⟨buf, w, h, w * 4⟩ := (Option.some_inj.mp hgen).symm
  subst hsp
  exact borders_ring_red (basePattern_length hbase) hbuf hx hy hring hTR hBL hBR

/-- C4 counterexample: in the generated 16×15 checkerboard (width and
height above 3), ring pixel `(15, 0)` — on the top edge and in the
rightmost column — is green `(0, 255, 0, 255)` because the top-right
corner box is stamped after the red border, refuting "every pixel of the
outer 3-pixel ring is (255, 0, 0, 255)". -/
theorem C4_counterexample :
    generatePattern .checkerboard 16 15 none none = some cb1615
    ∧ cb1615.buffer[0 * 16 + 15]? = some ⟨0, 255, 0, 255⟩
    ∧ cb1615.buffer[0 * 16 + 15]? ≠ some ⟨255, 0, 0, 255⟩ := by
  refine ⟨by decide, by decide, by decide⟩

/-- C4 witness: the amended theorem applied to the 16×15 checkerboard at
ring pixel `(0, 0)` (inside the always-red top-left box region). -/
theorem C4_witness :
    cb1615.buffer[0 * 16 + 0]? = some ⟨255, 0, 0, 255⟩ :=
  C4_ring_red .checkerboard 16 15 none none cb1615 (by decide) (by decide)
    (by decide) 0 0 (by decide) (by decide) (by decide) (by decide) (by decide)
    (by decide)

/-- C7: from construction onward the renderer always holds a cached
source pattern whose byte length is `width * 4 * height`
(`4 * pixel-count = width * 4 * height` in the pixel model) and whose
dimensions match the renderer's; `set_zoom`, `set_pan`,
`change_pattern_type` and `set_text` all preserve this invariant, and
regeneration replaces the cache wholesale, never nulling it.  (`render`
takes the state immutably and cannot disturb the cache.) -/
theorem C7_cache_invariant :
    (∀ pt w h r, ImageRenderer.new pt w h = some r → hasValidCache r = true)
    ∧ (∀ r z, hasValidCache r = true → hasValidCache (set_zoom r z) = true)
    ∧ (∀ r x y, hasValidCache r = true → hasValidCache (set_pan r x y) = true)
    ∧ (∀ r pt r', change_pattern_type r pt = some r' → hasValidCache r' = true)
    ∧ (∀ r p s r', set_text r p s = some r' →
        hasValidCache r = true → hasValidCache r' = true) := by
  have gen_valid : ∀ {r r' : ImageRenderer},
      generate_source_pattern r = some r' → hasValidCache r' = true := by
    intro r r' hg
    unfold generate_source_pattern at hg
    obtain ⟨sp, hsp, hg⟩ := optStep hg
    obtain ⟨hw, hh, hlen, -, -, -⟩ := generatePattern_spec hsp
    have hr' : r' = { r with source_pattern := some sp } :=
      (Option.some_inj.mp hg).symm
    subst hr'
    unfold hasValidCache
    simp only [beq_iff_eq, Bool.and_eq_true, decide_eq_true_eq]
    refine ⟨⟨?_, ?_⟩, ?_⟩
    · rw [hlen, hw, hh]
      ring
    · exact hw
    · exact hh
  refine ⟨?_, ?_, ?_, ?_, ?_⟩
  · intro pt w h r hr
    exact gen_valid hr
  · intro r z hr
    exact hr
  · intro r x y hr
    exact hr
  · intro r pt r' hc
    exact gen_valid hc
  · intro r p s r' hst hr
    obtain ⟨w, h, z, vx, vy, pt0, spat, p0, s0⟩ := r
    unfold set_text at hst
    cases pt0 with
    | text => exact gen_valid hst
    | checkerboard =>
      have hr' := (Option.some_inj.mp hst).symm
      subst hr'
      exact hr
    | gradient =>
      have hr' := (Option.some_inj.mp hst).symm
      subst hr'
      exact hr

/-- C7 witness: the invariant checked concretely on a fresh 15×15
checkerboard renderer and after each preserving operation. -/
theorem C7_witness :
    hasValidCache r15 = true
    ∧ hasValidCache (set_zoom r15 2) = true
    ∧ hasValidCache (set_pan r15 3 4) = true
    ∧ hasValidCache r15c = true
    ∧ hasValidCache r15t = true := by
  have h1 : hasValidCache r15 = true :=
    C7_cache_invariant.1 .checkerboard 15 15 r15 (by decide)
  exact ⟨h1, C7_cache_invariant.2.1 r15 2 h1, C7_cache_invariant.2.2.1 r15 3 4 h1,
    C7_cache_invariant.2.2.2.1 r15 .checkerboard r15c (by decide),
    C7_cache_invariant.2.2.2.2 r15 (some comingSoon) none r15t (by decide) h1⟩

theorem match_sentinel_getD (o : Option Color) (d : Color) :
    (match o with | some c => c | none => d) = o.getD d := by
  cases o <;> rfl

/-- C1 (amended): for every generated source pattern and every zoom in
`[0.1, 10]`, the compositor copies the RGBA quadruple of the source pixel
at `sx = toNat(⌊pan_x * scale⌋) + ⌊dx * scale⌋`, i.e. each pan
contribution is truncated toward zero *saturating below at 0* (a negative
pan term is treated as 0, not as a negative offset), the sum clamped to
`[0, width - 1]` (resp. height); the lookup is always in range — never an
index error, never wraparound, never the sentinel — and whenever
`pan_x, pan_y ≥ 0` this coincides with the spec's original
floor-then-clamp formula. -/
theorem C1_render_sampling (pt : PatternType) (w h : ℕ) (p s : Option (List Char))
    (sp : SourcePattern) (hgen : generatePattern pt w h p s = some sp)
    (z vx vy : ℚ) (hz1 : 1 / 10 ≤ z) (hz2 : z ≤ 10) (dx dy : ℕ) :
    render_pixel sp z vx vy dx dy = amended_samplePixel sp z vx vy dx dy
    ∧ (∃ c, sp.buffer[amended_src_index sp z vx vy dx dy]? = some c
        ∧ render_pixel sp z vx vy dx dy = c)
    ∧ (0 ≤ vx → 0 ≤ vy →
        render_pixel sp z vx vy dx dy = spec_samplePixel sp z vx vy dx dy) := by
  obtain ⟨hw, hh, hlen, -, hw15, hh15⟩ := generatePattern_spec hgen
  have hwpos : 0 < sp.width := by omega
  have hhpos : 0 < sp.height := by omega
  have hxlt : min ((⌊vx * (1 / z)⌋).toNat + (⌊(dx : ℚ) * (1 / z)⌋).toNat)
      (sp.width - 1) < sp.width := by
    have := Nat.min_le_right
      ((⌊vx * (1 / z)⌋).toNat + (⌊(dx : ℚ) * (1 / z)⌋).toNat) (sp.width - 1)
    omega
  have hylt : min ((⌊vy * (1 / z)⌋).toNat + (⌊(dy : ℚ) * (1 / z)⌋).toNat)
      (sp.height - 1) < sp.height := by
    have := Nat.min_le_right
      ((⌊vy * (1 / z)⌋).toNat + (⌊(dy : ℚ) * (1 / z)⌋).toNat) (sp.height - 1)
    omega
  have hidx : amended_src_index sp z vx vy dx dy < sp.buffer.length := by
    simp only [amended_src_index]
    have h2 := pix_lt hxlt hylt
    rw [hlen, ← hw, ← hh]
    exact h2
  have hsome : sp.buffer[amended_src_index sp z vx vy dx dy]?
      = some (sp.buffer.get ⟨amended_src_index sp z vx vy dx dy, hidx⟩) := by
    rw [List.get_eq_getElem]
    exact List.getElem?_eq_getElem hidx
  have hc1 : render_pixel sp z vx vy dx dy = amended_samplePixel sp z vx vy dx dy := by
    simp only [render_pixel, amended_samplePixel, amended_src_index, f64toUsize]
    exact match_sentinel_getD _ _
  refine ⟨hc1, ⟨sp.buffer.get ⟨amended_src_index sp z vx vy dx dy, hidx⟩, hsome, ?_⟩, ?_⟩
  · rw [hc1]
    unfold amended_samplePixel
    rw [hsome]
    rfl
  · intro hvx hvy
    have hz0 : (0 : ℚ) < z := lt_of_lt_of_le (by norm_num) hz1
    have hs0 : (0 : ℚ) < 1 / z := by positivity
    have ha1 : 0 ≤ ⌊vx * (1 / z)⌋ := Int.floor_nonneg.mpr (mul_nonneg hvx hs0.le)
    have ha2 : 0 ≤ ⌊(dx : ℚ) * (1 / z)⌋ :=
      Int.floor_nonneg.mpr (mul_nonneg (Nat.cast_nonneg dx) hs0.le)
    have hb1 : 0 ≤ ⌊vy * (1 / z)⌋ := Int.floor_nonneg.mpr (mul_nonneg hvy hs0.le)
    have hb2 : 0 ≤ ⌊(dy : ℚ) * (1 / z)⌋ :=
      Int.floor_nonneg.mpr (mul_nonneg (Nat.cast_nonneg dy) hs0.le)
    rw [hc1]
    simp only [amended_samplePixel, spec_samplePixel, amended_src_index]
    have hxeq : (max 0 (min (⌊vx * (1 / z)⌋ + ⌊(dx : ℚ) * (1 / z)⌋)
        ((sp.width : ℤ) - 1))).toNat
        = min ((⌊vx * (1 / z)⌋).toNat + (⌊(dx : ℚ) * (1 / z)⌋).toNat)
          (sp.width - 1) := by
      omega
    have hyeq : (max 0 (min (⌊vy * (1 / z)⌋ + ⌊(dy : ℚ) * (1 / z)⌋)
        ((sp.height : ℤ) - 1))).toNat
        = min ((⌊vy * (1 / z)⌋).toNat + (⌊(dy : ℚ) * (1 / z)⌋).toNat)
          (sp.height - 1) := by
      omega
    rw [hxeq, hyeq]

/-- C1 counterexample: the generated 16×15 checkerboard, zoom 1, pan
`(-50, 0)`, destination pixel `(5, 0)`.  The code saturates the negative
pan term to 0 and samples source pixel `(5, 0)` (green, inside the
top-right corner box), while the spec's formula clamps
`floor(-50) + floor(5) = -45` up to 0 and demands the color of source
pixel `(0, 0)` (red): the two differ. -/
theorem C1_counterexample :
    generatePattern .checkerboard 16 15 none none = some cb1615
    ∧ render_pixel cb1615 1 (-50) 0 5 0 ≠ spec_samplePixel cb1615 1 (-50) 0 5 0 := by
  have key : cb1615.width = 16 ∧ cb1615.height = 15
      ∧ cb1615.buffer[5]? = some ⟨0, 255, 0, 255⟩
      ∧ cb1615.buffer[0]? = some ⟨255, 0, 0, 255⟩
      ∧ generatePattern .checkerboard 16 15 none none = some cb1615 := by
    decide
  refine ⟨key.2.2.2.2, ?_⟩
  have f1 : (⌊(-50 : ℚ) * (1 / 1)⌋).toNat = 0 := by norm_num
  have f2 : (⌊((5 : ℕ) : ℚ) * (1 / 1)⌋).toNat = 5 := by
    norm_num
    decide
  have f3 : (⌊((0 : ℕ) : ℚ) * (1 / 1)⌋).toNat = 0 := by norm_num
  have g1 : ⌊(-50 : ℚ) * (1 / 1)⌋ = -50 := by norm_num
  have g2 : ⌊((5 : ℕ) : ℚ) * (1 / 1)⌋ = 5 := by norm_num
  have g3 : ⌊((0 : ℕ) : ℚ) * (1 / 1)⌋ = 0 := by norm_num
  have hcode : render_pixel cb1615 1 (-50) 0 5 0 = ⟨0, 255, 0, 255⟩ := by
    simp only [render_pixel, f64toUsize, key.1, key.2.1, f1, f2, f3]
    norm_num [key.2.2.1]
  have hspec : spec_samplePixel cb1615 1 (-50) 0 5 0 = ⟨255, 0, 0, 255⟩ := by
    simp only [spec_samplePixel, key.1, key.2.1, g1, g2, g3]
    norm_num [key.2.2.2.1]
  rw [hcode, hspec]
  decide

/-- C1 witness: the amended theorem applied to the generated 15×15
checkerboard at zoom 1, pan `(0, 0)`, destination pixel `(0, 0)`. -/
theorem C1_witness :
    render_pixel cb15 1 0 0 0 0 = amended_samplePixel cb15 1 0 0 0 0
    ∧ (∃ c, cb15.buffer[amended_src_index cb15 1 0 0 0 0]? = some c
        ∧ render_pixel cb15 1 0 0 0 0 = c)
    ∧ ((0 : ℚ) ≤ 0 → (0 : ℚ) ≤ 0 →
        render_pixel cb15 1 0 0 0 0 = spec_samplePixel cb15 1 0 0 0 0) :=
  C1_render_sampling .checkerboard 15 15 none none cb15 (by decide) 1 0 0
    tenth_le_one one_le_ten 0 0

/-- Unfolding of `render` when a source pattern is cached. -/
theorem render_eq_of_pattern {r : ImageRenderer} {sp : SourcePattern}
    (hsp : r.source_pattern = some sp) :
    r.render = ((get_viewport_size r).1, (get_viewport_size r).2,
      (List.range ((get_viewport_size r).1 * (get_viewport_size r).2)).map fun p =>
        render_pixel sp r.zoom_level r.view_x r.view_y
          (p % (get_viewport_size r).1) (p / (get_viewport_size r).1)) := by
  unfold ImageRenderer.render
  rw [hsp]

/-- C10 witness: the frame condition checked concretely on a fresh 15×15
checkerboard renderer re-targeted to the checkerboard pattern. -/
theorem C10_witness :
    r15c.zoom_level = r15.zoom_level ∧ r15c.view_x = r15.view_x
    ∧ r15c.view_y = r15.view_y ∧ r15c.primary_text = r15.primary_text
    ∧ r15c.secondary_text = r15.secondary_text
    ∧ r15c.source_width = r15.source_width
    ∧ r15c.source_height = r15.source_height
    ∧ r15c.pattern_type = .checkerboard :=
  C10_change_pattern_frame r15 .checkerboard r15c (by decide)

/-- C6: concrete scenario A.  For the 800×600 gradient source at zoom 2
and pan `(0, 0)`, the viewport measures 1600×1200, and output pixel
`(400, 300)` — index `300 * 1600 + 400` of the rendered buffer — samples
source pixel `(200, 150)` and receives `(63, 63, 200, 255)`, a location
outside the border and corner overlay zones. -/
theorem C6_scenario_A :
    ∃ r, ImageRenderer.new .gradient 800 600 = some r
    ∧ get_viewport_size (set_zoom r 2) = (1600, 1200)
    ∧ (set_zoom r 2).view_x = 0 ∧ (set_zoom r 2).view_y = 0
    ∧ ∃ sp, (set_zoom r 2).source_pattern = some sp
      ∧ render_pixel sp 2 0 0 400 300 = ⟨63, 63, 200, 255⟩
      ∧ ((set_zoom r 2).render).2.2[300 * 1600 + 400]? = some ⟨63, 63, 200, 255⟩ := by
  have hblen : (generate_gradient 800 600).length = 800 * 600 :=
    generate_gradient_length
  obtain ⟨buf, hbuf⟩ := Option.isSome_iff_exists.mp
    ((borders_isSome_iff hblen).mpr ⟨by norm_num, by norm_num⟩)
  have hgen : generatePattern .gradient 800 600 none none
      = some ⟨buf, 800, 600, 800 * 4⟩ := by
    simp only [generatePattern, basePattern]
    rw [Option.some_bind, hbuf, Option.some_bind]
  have n1 : (120200 : ℕ) ∉ topBottomIdxs 800 600 := by
    intro hm
    obtain ⟨y, x, hy, hx, hc⟩ := of_mem_topBottomIdxs hm
    rcases hc with hc | ⟨-, hc⟩ <;> omega
  have n2 : (120200 : ℕ) ∉ leftRightIdxs 800 600 := by
    intro hm
    obtain ⟨y, x, hx, hy, hc⟩ := of_mem_leftRightIdxs hm
    rcases hc with hc | ⟨-, hc⟩ <;> omega
  have n3 : (120200 : ℕ) ∉ boxIdxs 800 0 0 := by
    intro hm
    obtain ⟨y, x, hy, hx, hc⟩ := of_mem_boxIdxs hm
    omega
  have n4 : (120200 : ℕ) ∉ boxIdxs 800 (800 - 15) 0 := by
    intro hm
    obtain ⟨y, x, hy, hx, hc⟩ := of_mem_boxIdxs hm
    omega
  have n5 : (120200 : ℕ) ∉ boxIdxs 800 0 (600 - 15) := by
    intro hm
    obtain ⟨y, x, hy, hx, hc⟩ := of_mem_boxIdxs hm
    omega
  have n6 : (120200 : ℕ) ∉ boxIdxs 800 (800 - 15) (600 - 15) := by
    intro hm
    obtain ⟨y, x, hy, hx, hc⟩ := of_mem_boxIdxs hm
    omega
  have hchain : buf[(120200 : ℕ)]? = (generate_gradient 800 600)[(120200 : ℕ)]? := by
    obtain ⟨b1, b2, b3, b4, b5, h1, h2, h3, h4, h5, h6⟩ := borders_decomp hbuf
    rw [if_pos (by norm_num : (15 : ℕ) < 800)] at h4
    rw [if_pos (by norm_num : (15 : ℕ) < 600)] at h5
    rw [if_pos ⟨by norm_num, by norm_num⟩] at h6
    rw [paintAll_getElem_not_mem h6 n6, paintAll_getElem_not_mem h5 n5,
      paintAll_getElem_not_mem h4 n4, paintAll_getElem_not_mem h3 n3,
      paintAll_getElem_not_mem h2 n2, paintAll_getElem_not_mem h1 n1]
  have hgg : (generate_gradient 800 600)[(120200 : ℕ)]?
      = some (gradientColor 800 600 200 150) := by
    have e : (120200 : ℕ) = 150 * 800 + 200 := by norm_num
    rw [e]
    exact generate_gradient_getElem (by norm_num) (by norm_num)
  have hcol : gradientColor 800 600 200 150 = ⟨63, 63, 200, 255⟩ := by
    unfold gradientColor f64toU8
    norm_num [Int.floor_eq_iff]
    try decide
  have hpix : render_pixel ⟨buf, 800, 600, 800 * 4⟩ 2 0 0 400 300
      = ⟨63, 63, 200, 255⟩ := by
    have m1 : (⌊(0 : ℚ) * (1 / 2)⌋).toNat = 0 := by norm_num
    have m2 : (⌊((400 : ℕ) : ℚ) * (1 / 2)⌋).toNat = 200 := by
      norm_num
      decide
    have m3 : (⌊((300 : ℕ) : ℚ) * (1 / 2)⌋).toNat = 150 := by
      norm_num
      decide
    simp only [render_pixel, f64toUsize, m1, m2, m3]
    norm_num
    rw [hchain, hgg]
    simp [hcol]
  have hclamp : min (max (2 : ℚ) (1 / 10)) 10 = 2 := by
    rw [max_eq_left (by norm_num)]
    exact min_eq_left (by norm_num)
  refine ⟨⟨800, 600, 1, 0, 0, .gradient, some ⟨buf, 800, 600, 800 * 4⟩, none, none⟩,
    ?_, ?_, rfl, rfl, ⟨buf, 800, 600, 800 * 4⟩, rfl, hpix, ?_⟩
  · simp only [ImageRenderer.new, generate_source_pattern]
    rw [hgen, Option.some_bind]
  · have hz2 : (set_zoom ⟨800, 600, 1, 0, 0, .gradient,
        some ⟨buf, 800, 600, 800 * 4⟩, none, none⟩ 2).zoom_level = 2 := hclamp
    unfold get_viewport_size f64toUsize
    rw [hz2]
    rw [show (set_zoom ⟨800, 600, 1, 0, 0, .gradient,
      some ⟨buf, 800, 600, 800 * 4⟩, none, none⟩ 2).source_width = 800 from rfl]
    rw [show (set_zoom ⟨800, 600, 1, 0, 0, .gradient,
      some ⟨buf, 800, 600, 800 * 4⟩, none, none⟩ 2).source_height = 600 from rfl]
    norm_num
    constructor <;> decide
  · have hz2 : (set_zoom ⟨800, 600, 1, 0, 0, .gradient,
        some ⟨buf, 800, 600, 800 * 4⟩, none, none⟩ 2).zoom_level = 2 := hclamp
    have hvx : (set_zoom ⟨800, 600, 1, 0, 0, .gradient,
        some ⟨buf, 800, 600, 800 * 4⟩, none, none⟩ 2).view_x = 0 := rfl
    have hvy : (set_zoom ⟨800, 600, 1, 0, 0, .gradient,
        some ⟨buf, 800, 600, 800 * 4⟩, none, none⟩ 2).view_y = 0 := rfl
    have hsp : (set_zoom ⟨800, 600, 1, 0, 0, .gradient,
        some ⟨buf, 800, 600, 800 * 4⟩, none, none⟩ 2).source_pattern
        = some ⟨buf, 800, 600, 800 * 4⟩ := rfl
    have hv : get_viewport_size (set_zoom ⟨800, 600, 1, 0, 0, .gradient,
        some ⟨buf, 800, 600, 800 * 4⟩, none, none⟩ 2) = (1600, 1200) := by
      unfold get_viewport_size f64toUsize
      rw [hz2]
      rw [show (set_zoom ⟨800, 600, 1, 0, 0, .gradient,
        some ⟨buf, 800, 600, 800 * 4⟩, none, none⟩ 2).source_width = 800 from rfl]
      rw [show (set_zoom ⟨800, 600, 1, 0, 0, .gradient,
        some ⟨buf, 800, 600, 800 * 4⟩, none, none⟩ 2).source_height = 600 from rfl]
      norm_num
      constructor <;> decide
    rw [render_eq_of_pattern hsp, hv]
    dsimp only
    rw [hz2, hvx, hvy]
    rw [mem_map_range_getElem (by norm_num : (300 * 1600 + 400 : ℕ) < 1600 * 1200)]
    have e1 : ((300 * 1600 + 400 : ℕ)) % 1600 = 400 := by norm_num
    have e2 : ((300 * 1600 + 400 : ℕ)) / 1600 = 300 := by norm_num
    rw [e1, e2, hpix]

end CocoaRenderer
